import Mathlib

/-!
Shallow embedding of the Grid7 backend (src/main.py, src/schemas.py).

Python strings are sequences of code points and are modelled as `List Char`.
Machine-level details (HTTP, feedparser I/O) are modelled by explicit data:
a feed either yields a list of raw entries or raises (`Except Unit _`), and
a raw entry carries the optional fields the code reads via `getattr`.
-/

deriving instance DecidableEq for Except

namespace Grid7

/-- Python strings modelled as lists of code points. -/
abbrev Str := List Char

/-- Convert a Lean string literal to the `List Char` model. -/
def str (s : String) : Str := s.toList

/-- Python `str.lower()` (ASCII-relevant part, as used by the keyword table). -/
def lowerStr (s : Str) : Str := s.map Char.toLower

/-- Python `str.strip()`: drop leading whitespace. -/
def trimLeft (s : Str) : Str := s.dropWhile Char.isWhitespace

/-- Python `str.strip()`: drop trailing whitespace. -/
def trimRight (s : Str) : Str := (s.reverse.dropWhile Char.isWhitespace).reverse

/-- Python `str.strip()`: drop leading and trailing whitespace. -/
def trim (s : Str) : Str := trimRight (trimLeft s)

/-- Does `pat` occur as a contiguous substring of the second argument
(Python `pat in t`)? -/
def hasSubstr (pat : Str) : Str → Bool
  | [] => pat.isEmpty
  | c :: cs => pat.isPrefixOf (c :: cs) || hasSubstr pat cs

/-- Worker for Python `str.replace(pat, rep)`: scans left to right; a positive
skip count means we are inside an already-matched occurrence whose characters
are consumed without being emitted and without being rescanned
(non-overlapping replacement, as in Python). -/
def replaceAux (pat rep : Str) : Nat → Str → Str
  | _, [] => []
  | Nat.succ k, _ :: cs => replaceAux pat rep k cs
  | 0, c :: cs =>
    if pat.isPrefixOf (c :: cs) then rep ++ replaceAux pat rep (pat.length - 1) cs
    else c :: replaceAux pat rep 0 cs

/-- Python `s.replace(pat, rep)` for a non-empty pattern. -/
def replaceL (pat rep s : Str) : Str := replaceAux pat rep 0 s

/-- The closed category set, `CATEGORY_SET` of src/main.py line 36
(a set of four string constants; modelled as a list). -/
def CATEGORY_SET : List Str := [str "AI", str "OS", str "Gadgets", str "Other"]

/-- The ordered keyword-to-category mapping, `KEYWORD_TO_CATEGORY` of
src/main.py lines 46-61. Python dicts iterate in insertion order, so the
source order of the pairs is the scan order. -/
def KEYWORD_TO_CATEGORY : List (Str × Str) :=
  [ (str "ai", str "AI")
  , (str "artificial intelligence", str "AI")
  , (str "machine learning", str "AI")
  , (str "linux", str "OS")
  , (str "windows", str "OS")
  , (str "android", str "OS")
  , (str "ios", str "OS")
  , (str "macos", str "OS")
  , (str "iphone", str "Gadgets")
  , (str "ipad", str "Gadgets")
  , (str "watch", str "Gadgets")
  , (str "laptop", str "Gadgets")
  , (str "phone", str "Gadgets")
  , (str "camera", str "Gadgets") ]

/-- The keyword scan loop of `_infer_category` (src/main.py lines 66-69):
first keyword occurring in the text decides the category, else "Other". -/
def inferScan (m : List (Str × Str)) (t : Str) : Str :=
  match m with
  | [] => str "Other"
  | (kw, cat) :: rest => if hasSubstr kw t then cat else inferScan rest t

/-- `_infer_category` of src/main.py lines 64-69: lower-case the input, scan
the keyword table in fixed order. (`text or ""` is the identity on strings.) -/
def _infer_category (text : Str) : Str :=
  inferScan KEYWORD_TO_CATEGORY (lowerStr text)

/-- The `Article` record of src/schemas.py. Timestamps are modelled as `Nat`. -/
structure Article where
  source : Str
  category : Str
  headline : Str
  summary : Str
  content : Option Str
  links : Option (List Str)
  published_at : Option Nat
deriving DecidableEq

/-- A raw feedparser entry, carrying exactly the optional attributes
src/main.py reads via `getattr` (`none` models a missing attribute), plus the
entry's full `links` attribute, which the code never reads. -/
structure RawEntry where
  title : Option Str
  summary : Option Str
  description : Option Str
  link : Option Str
  links : List Str
  published_parsed : Option Nat
  updated_parsed : Option Nat
deriving DecidableEq

/-- A configured feed source: its name, and either the raw entries obtained
from `feedparser.parse` or an exception while fetching or parsing. -/
structure Feed where
  source : Str
  fetched : Except Unit (List RawEntry)

/-- Models pydantic `HttpUrl` validation of src/schemas.py (an external
validator): a URL is accepted iff it has an http or https scheme followed by
a non-empty remainder. The claims do not depend on the finer points of the
real validator, only on accepting ordinary http(s) URLs and rejecting
non-URLs. -/
def isValidHttpUrl (u : Str) : Bool :=
  ((str "http://").isPrefixOf u && decide (7 < u.length)) ||
  ((str "https://").isPrefixOf u && decide (8 < u.length))

/-- Normalization of one raw entry into an `Article`
(src/main.py lines 78-96). Returns `Except.error` when the pydantic
validation of the constructed record raises (invalid link URL). -/
def normalizeEntry (source : Str) (e : RawEntry) : Except Unit Article :=
  let title := trim (e.title.getD [])
  let summary :=
    match e.summary with
    | some s => s
    | none => e.description.getD []
  let published :=
    match e.published_parsed with
    | some t => some t
    | none => e.updated_parsed
  let category := _infer_category (title ++ [' '] ++ summary)
  let links : Option (List Str) :=
    match e.link with
    | some l => if l = [] then none else some [l]
    | none => none
  if links.all (fun ls => ls.all isValidHttpUrl) then
    Except.ok
      { source := source
      , category := category
      , headline := if title = [] then str "Untitled" else title.take 240
      , summary := (trim (replaceL (str "</p>") [' '] (replaceL (str "<p>") [' '] summary))).take 600
      , content := none
      , links := links
      , published_at := published }
  else
    Except.error ()

/-- The inner entry loop of `fetch_live_articles` (src/main.py lines 77-97):
entries are normalized in order and appended; an exception raised while
normalizing an entry propagates to the per-feed handler, so the remaining
entries of that feed are not processed (entries appended before the failure
are kept). -/
def processEntries (source : Str) : List RawEntry → List Article
  | [] => []
  | e :: rest =>
    match normalizeEntry source e with
    | Except.ok a => a :: processEntries source rest
    | Except.error _ => []

/-- The per-feed step of `fetch_live_articles` (src/main.py lines 74-99):
a feed whose fetch or parse raises contributes nothing (`except: continue`);
otherwise at most `max_per_feed` entries are read and normalized. -/
def feedItems (max_per_feed : Nat) (f : Feed) : List Article :=
  match f.fetched with
  | Except.error _ => []
  | Except.ok entries => processEntries f.source (entries.take max_per_feed)

/-- The unsorted concatenation of every feed's contribution, in feed order
(the `items` list of src/main.py just before line 101). -/
def allItems (feeds : List Feed) (max_per_feed : Nat) : List Article :=
  (feeds.map (feedItems max_per_feed)).flatten

/-- The effective sort key of src/main.py line 101:
`a.published_at or datetime.now(timezone.utc)`. -/
def effKey (now : Nat) (a : Article) : Nat := a.published_at.getD now

/-- Python `items.sort(key=..., reverse=True)` (src/main.py line 101):
a stable sort placing larger effective keys first; ties keep their original
relative order, which is exactly a stable insertion sort for the non-strict
descending relation. -/
def sortArticles (now : Nat) (l : List Article) : List Article :=
  List.insertionSort (fun a b => effKey now b ≤ effKey now a) l

/-- `fetch_live_articles` of src/main.py lines 72-102, parametrized by the
feed contents and the current time. -/
def fetch_live_articles (feeds : List Feed) (max_per_feed : Nat) (now : Nat) :
    List Article :=
  (sortArticles now (allItems feeds max_per_feed)).take 60

/-- The store-failure fallback branch of `get_articles`
(src/main.py lines 183-189) followed by the final sort of line 192: live
fetch, in-memory category filter for a recognized non-empty category, total
taken as the length of the filtered list, then the limit cap and the final
sort. Returns (items, total). -/
def get_articles_fallback (feeds : List Feed) (category : Option Str)
    (limit : Nat) (now : Nat) : List Article × Nat :=
  let items := fetch_live_articles feeds 15 now
  let filtered :=
    match category with
    | some c =>
      if c ≠ [] ∧ c ∈ CATEGORY_SET then
        items.filter (fun a : Article => decide (a.category = c))
      else items
    | none => items
  let total := filtered.length
  (sortArticles now (filtered.take limit), total)

/-- Modelled from the spec: the store adapter insert
(`create_document` of the repository's database module, which is not under
src/). Per the spec's collaborator contract `insert(collection, document)`,
inserting appends one document to the stored collection. -/
def create_document (s : List Article) (a : Article) : List Article := s ++ [a]

/-- Modelled from the spec: deleting every record of the article collection
(`db["article"].delete_many({})` against the store, not under src/), per the
spec's delete-all-then-insert-all refresh contract. -/
def delete_many (_s : List Article) : List Article := []

/-- The persistence effect of `trigger_refresh` (src/main.py lines 220-227)
when the store is available and no operation raises: delete every stored
article, then insert each freshly fetched article in order
(`fetch_live_articles()` uses its default per-feed cap of 15). -/
def trigger_refresh_store (feeds : List Feed) (now : Nat) (s : List Article) :
    List Article :=
  (fetch_live_articles feeds 15 now).foldl create_document (delete_many s)

/-- The HTTP response of the refresh endpoint. -/
structure RefreshResponse where
  status : Str
  refreshed_at : Nat
deriving DecidableEq

/-- Failure behaviour of the store during one refresh: whether `db` is
truthy, whether `delete_many` raises, and the index of the first insert that
raises, if any. -/
structure StoreBehavior where
  available : Bool
  deleteFails : Bool
  insertFailsAt : Option Nat

/-- Insert articles one at a time starting at index `idx`; an `error` result
carries the store state at the moment the failing insert raised. -/
def insertAllFrom (failAt : Option Nat) (idx : Nat) (s : List Article) :
    List Article → Except (List Article) (List Article)
  | [] => Except.ok s
  | a :: rest =>
    if failAt = some idx then Except.error s
    else insertAllFrom failAt (idx + 1) (create_document s a) rest

/-- The body of the `try` block of `trigger_refresh`
(src/main.py lines 221-227): the live fetch may raise; when the store handle
is truthy, delete-all may raise, then each insert may raise. An `error`
result models an exception reaching the `except` handler, carrying the store
state at that moment. -/
def refreshBody (b : StoreBehavior) (fetchRes : Except Unit (List Article))
    (s : List Article) : Except (List Article) (List Article) :=
  match fetchRes with
  | Except.error _ => Except.error s
  | Except.ok live =>
    if b.available then
      if b.deleteFails then Except.error s
      else insertAllFrom b.insertFailsAt 0 (delete_many s) live
    else Except.ok s

/-- `trigger_refresh` of src/main.py lines 214-230: the timestamp is taken
before the `try` block, any exception from the body is swallowed
(`except: pass`), and `{status: "ok", refreshed_at}` is returned
unconditionally. Returns (response, final store state). -/
def trigger_refresh (now : Nat) (b : StoreBehavior)
    (fetchRes : Except Unit (List Article)) (s : List Article) :
    RefreshResponse × List Article :=
  match refreshBody b fetchRes s with
  | Except.ok s2 => (⟨str "ok", now⟩, s2)
  | Except.error s2 => (⟨str "ok", now⟩, s2)

/-- Demo entry: a well-formed entry with a valid link and a published time. -/
def goodEntry1 : RawEntry :=
  { title := some (str "Linux kernel update")
  , summary := none
  , description := none
  , link := some (str "https://example.com/a")
  , links := []
  , published_parsed := some 100
  , updated_parsed := none }

/-- Demo entry whose normalization raises: its link fails URL validation. -/
def badEntry : RawEntry :=
  { title := some (str "Broken")
  , summary := none
  , description := none
  , link := some (str "notaurl")
  , links := []
  , published_parsed := none
  , updated_parsed := none }

/-- Demo entry: a second well-formed entry, after the malformed one. -/
def goodEntry2 : RawEntry :=
  { title := some (str "Camera review")
  , summary := none
  , description := none
  , link := some (str "https://example.com/b")
  , links := []
  , published_parsed := some 50
  , updated_parsed := none }

/-- The article `goodEntry1` normalizes to. -/
def aGood1 : Article :=
  { source := str "Demo"
  , category := str "OS"
  , headline := str "Linux kernel update"
  , summary := []
  , content := none
  , links := some [str "https://example.com/a"]
  , published_at := some 100 }

/-- The article `goodEntry2` normalizes to. -/
def aGood2 : Article :=
  { source := str "Demo"
  , category := str "Gadgets"
  , headline := str "Camera review"
  , summary := []
  , content := none
  , links := some [str "https://example.com/b"]
  , published_at := some 50 }

/-- A feed whose second entry is malformed and whose first and third are not. -/
def feedC3 : Feed := ⟨str "Demo", Except.ok [goodEntry1, badEntry, goodEntry2]⟩

/-- A well-formed AI-classified entry with the given title and timestamp. -/
def aiEntry (t : Str) (ts : Nat) : RawEntry :=
  { title := some t
  , summary := none
  , description := none
  , link := none
  , links := []
  , published_parsed := some ts
  , updated_parsed := none }

/-- A feed yielding six AI-classified articles. -/
def feedC4 : Feed :=
  ⟨str "Demo", Except.ok
    [ aiEntry (str "ai a") 10, aiEntry (str "ai b") 11, aiEntry (str "ai c") 12
    , aiEntry (str "ai d") 13, aiEntry (str "ai e") 14, aiEntry (str "ai f") 15 ]⟩

/-- The article `aiEntry (str "ai f") 15` normalizes to. -/
def aAiF : Article :=
  { source := str "Demo"
  , category := str "AI"
  , headline := str "ai f"
  , summary := []
  , content := none
  , links := none
  , published_at := some 15 }

/-- Demo entry with every optional attribute missing. -/
def eEmpty : RawEntry :=
  { title := none
  , summary := none
  , description := none
  , link := none
  , links := []
  , published_parsed := none
  , updated_parsed := none }

/-- The article `eEmpty` normalizes to. -/
def aEmpty : Article :=
  { source := str "Demo"
  , category := str "Other"
  , headline := str "Untitled"
  , summary := []
  , content := none
  , links := none
  , published_at := none }

/-- Demo entry whose summary is a paragraph marker followed by 600 characters:
only after the marker is replaced does the text fit the 600-character cap. -/
def eLongSummary : RawEntry :=
  { title := some (str "t")
  , summary := some (str "<p>" ++ List.replicate 600 'a')
  , description := none
  , link := none
  , links := []
  , published_parsed := none
  , updated_parsed := none }

/-- The keyword scan returns the fallback or the category of some table entry. -/
theorem inferScan_mem (m : List (Str × Str)) (t : Str) :
    inferScan m t = str "Other" ∨ inferScan m t ∈ m.map Prod.snd := by
  induction m with
  | nil => exact Or.inl rfl
  | cons p rest ih =>
    obtain ⟨kw, cat⟩ := p
    by_cases h : hasSubstr kw t
    · right
      simp [inferScan, h]
    · rcases ih with h2 | h2
      · left
        simpa [inferScan, h] using h2
      · right
        simp only [inferScan, if_neg h, List.map_cons, List.mem_cons]
        exact Or.inr h2

/-- C1: for every input text the category classifier returns an element of the
closed set AI, OS, Gadgets, Other, and a text containing both "ai" and
"iphone" is classified "AI" because "ai" precedes "iphone" in the fixed scan
order of the keyword table. -/
theorem c1_classifier_closed_set_and_order :
    (∀ t : Str, _infer_category t ∈ CATEGORY_SET) ∧
    _infer_category (str "The new iPhone ships with AI features") = str "AI" := by
  constructor
  · intro t
    rcases inferScan_mem KEYWORD_TO_CATEGORY (lowerStr t) with h | h
    · unfold _infer_category
      rw [h]
      decide
    · have h2 : ∀ x ∈ KEYWORD_TO_CATEGORY.map Prod.snd, x ∈ CATEGORY_SET := by decide
      exact h2 _ h
  · decide

/-- C6: a feed source whose fetch or parse raises contributes nothing and is
invisible in the aggregator result, which equals the result computed from the
remaining sources alone. -/
theorem c6_failed_feed_skipped (fs₁ fs₂ : List Feed) (f : Feed) (mpf now : Nat)
    (h : f.fetched = Except.error ()) :
    fetch_live_articles (fs₁ ++ f :: fs₂) mpf now
      = fetch_live_articles (fs₁ ++ fs₂) mpf now := by
  have hf : feedItems mpf f = [] := by simp [feedItems, h]
  simp [fetch_live_articles, allItems, hf]

/-- Witness for C6 at a concrete configuration: an unreachable feed next to
`feedC3` leaves the aggregation result unchanged. -/
theorem c6_failed_feed_skipped_witness :
    fetch_live_articles [feedC3, ⟨str "Down", Except.error ()⟩] 15 0
      = fetch_live_articles [feedC3] 15 0 :=
  c6_failed_feed_skipped [feedC3] [] ⟨str "Down", Except.error ()⟩ 15 0 rfl

/-- C7: whatever the live fetch does and however the store behaves, the
refresh endpoint answers status "ok" with the timestamp taken on entry. -/
theorem c7_refresh_always_ok (now : Nat) (b : StoreBehavior)
    (fetchRes : Except Unit (List Article)) (s : List Article) :
    (trigger_refresh now b fetchRes s).1 = ⟨str "ok", now⟩ := by
  unfold trigger_refresh
  cases hr : refreshBody b fetchRes s <;> simp [hr]

/-- Inserting a list of documents one at a time appends it to the store. -/
theorem foldl_create_document (l init : List Article) :
    l.foldl create_document init = init ++ l := by
  induction l generalizing init with
  | nil => simp
  | cons a rest ih => simp [create_document, ih]

/-- C9: one successful refresh replaces the stored set with exactly the fresh
fetch result, so a second refresh over unchanged feed content changes
nothing: refresh is idempotent on the stored article set. -/
theorem c9_refresh_idempotent (feeds : List Feed) (now : Nat) (s : List Article) :
    trigger_refresh_store feeds now (trigger_refresh_store feeds now s)
        = trigger_refresh_store feeds now s ∧
    trigger_refresh_store feeds now s = fetch_live_articles feeds 15 now := by
  have h : ∀ s2 : List Article,
      trigger_refresh_store feeds now s2 = fetch_live_articles feeds 15 now := by
    intro s2
    simp [trigger_refresh_store, delete_many, foldl_create_document]
  exact ⟨by rw [h, h], h s⟩

/-- C2: the aggregator returns at most 60 articles, sorted non-increasingly
by the effective published time (an absent `published_at` is ranked with the
current time), and every returned record is one of the normalized records,
so an absent timestamp is preserved rather than replaced. -/
theorem c2_aggregator_sorted_capped (feeds : List Feed) (mpf now : Nat) :
    (fetch_live_articles feeds mpf now).length ≤ 60 ∧
    List.Sorted (fun a b => effKey now b ≤ effKey now a)
      (fetch_live_articles feeds mpf now) ∧
    ∀ a ∈ fetch_live_articles feeds mpf now, a ∈ allItems feeds mpf := by
  simp only [fetch_live_articles, sortArticles]
  refine ⟨List.length_take_le _ _, ?_, ?_⟩
  · haveI ht : IsTotal Article (fun a b => effKey now b ≤ effKey now a) :=
      ⟨fun a b => le_total _ _⟩
    haveI htr : IsTrans Article (fun a b => effKey now b ≤ effKey now a) :=
      ⟨fun _ _ _ h1 h2 => le_trans h2 h1⟩
    have hs := List.sorted_insertionSort (fun a b => effKey now b ≤ effKey now a)
      (allItems feeds mpf)
    exact List.Pairwise.sublist (List.take_sublist _ _) hs
  · intro a ha
    have h1 := List.take_subset 60 _ ha
    exact (List.mem_insertionSort _).mp h1

/-- Witness for C2 at a concrete configuration: the six-article feed yields at
most 60 results, and a returned article is one of the normalized records. -/
theorem c2_aggregator_sorted_capped_witness :
    (fetch_live_articles [feedC4] 15 0).length ≤ 60 ∧ aAiF ∈ allItems [feedC4] 15 :=
  ⟨(c2_aggregator_sorted_capped [feedC4] 15 0).1,
   (c2_aggregator_sorted_capped [feedC4] 15 0).2.2 aAiF (by decide)⟩

/-- C3 counterexample: in `feedC3` the malformed second entry aborts the rest
of its feed, so the third entry, although it normalizes fine on its own, is
missing from the aggregation result, which keeps only the first entry. -/
theorem c3_malformed_entry_counterexample :
    normalizeEntry (str "Demo") goodEntry2 = Except.ok aGood2 ∧
    aGood2 ∉ fetch_live_articles [feedC3] 15 0 ∧
    (fetch_live_articles [feedC3] 15 0).length = 1 :=
  ⟨by decide, by decide, by decide⟩

/-- C3 amended: a malformed entry drops itself and every later entry of its
own feed; the feed's entries normalized before it are kept. -/
theorem c3_malformed_entry_amended (source : Str) (pre post : List RawEntry)
    (bad : RawEntry) (h : normalizeEntry source bad = Except.error ()) :
    processEntries source (pre ++ bad :: post) = processEntries source pre := by
  induction pre with
  | nil => simp [processEntries, h]
  | cons e rest ih =>
    simp only [List.cons_append, processEntries]
    cases hne : normalizeEntry source e <;> simp [hne, ih]

/-- Witness for the amended C3 at the concrete malformed feed. -/
theorem c3_malformed_entry_amended_witness :
    processEntries (str "Demo") ([goodEntry1] ++ badEntry :: [goodEntry2])
      = processEntries (str "Demo") [goodEntry1] :=
  c3_malformed_entry_amended (str "Demo") [goodEntry1] [goodEntry2] badEntry (by decide)

/-- C4 counterexample: with six live AI articles and limit 5, the fallback
path reports total 6 while returning 5 items, so the total differs from the
length of the returned list. -/
theorem c4_fallback_total_counterexample :
    (get_articles_fallback [feedC4] (some (str "AI")) 5 0).2 = 6 ∧
    ((get_articles_fallback [feedC4] (some (str "AI")) 5 0).1).length = 5 ∧
    (get_articles_fallback [feedC4] (some (str "AI")) 5 0).2
      ≠ ((get_articles_fallback [feedC4] (some (str "AI")) 5 0).1).length :=
  ⟨by decide, by decide, by decide⟩

/-- C4 amended: on a store failure the handler falls back to a live fetch and
filters in memory; the reported total is the size of the filtered set before
capping at the limit, while the item list is the filtered set capped at the
limit (and every returned item matches the requested category). -/
theorem c4_fallback_total_amended (feeds : List Feed) (c : Str) (limit now : Nat)
    (h1 : c ≠ []) (h2 : c ∈ CATEGORY_SET) :
    (get_articles_fallback feeds (some c) limit now).2
      = ((fetch_live_articles feeds 15 now).filter
          (fun a : Article => decide (a.category = c))).length ∧
    ((get_articles_fallback feeds (some c) limit now).1).length
      = min limit ((fetch_live_articles feeds 15 now).filter
          (fun a : Article => decide (a.category = c))).length ∧
    ∀ a ∈ (get_articles_fallback feeds (some c) limit now).1, a.category = c := by
  have hc : c ≠ [] ∧ c ∈ CATEGORY_SET := ⟨h1, h2⟩
  simp only [get_articles_fallback, if_pos hc]
  refine ⟨trivial, ?_, ?_⟩
  · simp [sortArticles, List.length_take]
  · intro a ha
    have h3 := (List.mem_insertionSort _).mp ha
    have h4 := List.take_subset _ _ h3
    have h5 := List.mem_filter.mp h4
    exact of_decide_eq_true h5.2

/-- Witness for the amended C4 at the concrete six-article AI feed. -/
theorem c4_fallback_total_amended_witness :
    (get_articles_fallback [feedC4] (some (str "AI")) 5 0).2
      = ((fetch_live_articles [feedC4] 15 0).filter
          (fun a : Article => decide (a.category = str "AI"))).length :=
  (c4_fallback_total_amended [feedC4] (str "AI") 5 0 (by decide) (by decide)).1

/-- The empty pattern occurs in every string. -/
theorem hasSubstr_nil_pat (l : Str) : hasSubstr [] l = true := by
  cases l <;> simp [hasSubstr, List.isPrefixOf]

/-- A prefix of `l` stays one after appending on the right. -/
theorem isPrefixOf_append_right (p l t : Str) (h : p.isPrefixOf l = true) :
    p.isPrefixOf (l ++ t) = true := by
  rw [List.isPrefixOf_iff_prefix] at h ⊢
  exact h.trans (l.prefix_append t)

/-- Occurrence is preserved by appending on the right. -/
theorem hasSubstr_append_right (p l t : Str) (h : hasSubstr p l = true) :
    hasSubstr p (l ++ t) = true := by
  induction l with
  | nil =>
    have hp : p = [] := by simpa [hasSubstr, List.isEmpty_iff] using h
    subst hp
    exact hasSubstr_nil_pat t
  | cons c cs ih =>
    simp only [hasSubstr, Bool.or_eq_true] at h
    rcases h with h1 | h1
    · have h2 := isPrefixOf_append_right p (c :: cs) t h1
      simp only [List.cons_append] at h2
      simp [hasSubstr, h2]
    · simp [hasSubstr, ih h1]

/-- Occurrence is preserved by prepending on the left. -/
theorem hasSubstr_append_left (p l t : Str) (h : hasSubstr p t = true) :
    hasSubstr p (l ++ t) = true := by
  induction l with
  | nil => simpa using h
  | cons c cs ih => simp [hasSubstr, ih]

/-- An occurrence inside a dropped suffix is an occurrence. -/
theorem hasSubstr_drop (p : Str) (k : Nat) (l : Str)
    (h : hasSubstr p (l.drop k) = true) : hasSubstr p l = true := by
  have h2 := hasSubstr_append_left p (l.take k) (l.drop k) h
  rwa [List.take_append_drop] at h2

/-- An occurrence inside a taken prefix is an occurrence. -/
theorem hasSubstr_take (p : Str) (k : Nat) (l : Str)
    (h : hasSubstr p (l.take k) = true) : hasSubstr p l = true := by
  have h2 := hasSubstr_append_right p (l.take k) (l.drop k) h
  rwa [List.take_append_drop] at h2

/-- An occurrence after trimming trailing whitespace is an occurrence. -/
theorem hasSubstr_trimRight (p y : Str) (h : hasSubstr p (trimRight y) = true) :
    hasSubstr p y = true := by
  obtain ⟨s, hs⟩ := List.dropWhile_suffix (l := y.reverse) Char.isWhitespace
  have hy : y = trimRight y ++ s.reverse := by
    have h2 := congrArg List.reverse hs
    simp only [List.reverse_append, List.reverse_reverse] at h2
    exact h2.symm
  rw [hy]
  exact hasSubstr_append_right _ _ _ h

/-- An occurrence after trimming leading whitespace is an occurrence. -/
theorem hasSubstr_trimLeft (p l : Str) (h : hasSubstr p (trimLeft l) = true) :
    hasSubstr p l = true := by
  obtain ⟨s, hs⟩ := List.dropWhile_suffix (l := l) Char.isWhitespace
  rw [← hs]
  exact hasSubstr_append_left _ _ _ h

/-- An occurrence in the trimmed string is an occurrence. -/
theorem hasSubstr_trim (p l : Str) (h : hasSubstr p (trim l) = true) :
    hasSubstr p l = true :=
  hasSubstr_trimLeft p l (hasSubstr_trimRight p (trimLeft l) h)

/-- If a pattern is absent it stays absent after trimming and truncating. -/
theorem no_substr_take_trim (p l : Str) (h : hasSubstr p l = false) (n : Nat) :
    hasSubstr p ((trim l).take n) = false := by
  cases hb : hasSubstr p ((trim l).take n) with
  | false => rfl
  | true =>
    have h2 := hasSubstr_trim p l (hasSubstr_take p n (trim l) hb)
    rw [h] at h2
    exact absurd h2 Bool.false_ne_true

/-- Scanning with a pending skip equals scanning the dropped tail. -/
theorem replaceAux_skip (pat rep : Str) (k : Nat) (l : Str) :
    replaceAux pat rep k l = replaceAux pat rep 0 (l.drop k) := by
  induction l generalizing k with
  | nil => cases k <;> simp [replaceAux]
  | cons c cs ih =>
    cases k with
    | zero => simp
    | succ k2 => simpa [replaceAux] using ih k2

/-- One unfolding step of `replaceL` on a non-empty string. -/
theorem replaceL_cons (pat rep : Str) (c : Char) (cs : Str) :
    replaceL pat rep (c :: cs)
      = if pat.isPrefixOf (c :: cs) then
          rep ++ replaceL pat rep (cs.drop (pat.length - 1))
        else c :: replaceL pat rep cs := by
  show replaceAux pat rep 0 (c :: cs) = _
  simp only [replaceL, replaceAux]
  rw [replaceAux_skip pat rep (pat.length - 1) cs]

/-- A space-free prefix of a replaced-by-space output was already a prefix of
the input. -/
theorem isPrefixOf_replaceL :
    ∀ (w : Str), ' ' ∉ w → ∀ (pat l : Str),
      w.isPrefixOf (replaceL pat [' '] l) = true → w.isPrefixOf l = true := by
  intro w
  induction w with
  | nil =>
    intro _ pat l _
    simp [List.isPrefixOf]
  | cons a w2 ih =>
    intro hw pat l h
    cases l with
    | nil => simp [replaceL, replaceAux, List.isPrefixOf] at h
    | cons c cs =>
      rw [replaceL_cons] at h
      by_cases hm : pat.isPrefixOf (c :: cs) = true
      · rw [if_pos hm] at h
        exfalso
        simp only [List.singleton_append, List.isPrefixOf, Bool.and_eq_true,
          beq_iff_eq] at h
        exact hw (by simp [h.1])
      · rw [if_neg hm] at h
        simp only [List.isPrefixOf, Bool.and_eq_true] at h ⊢
        refine ⟨h.1, ?_⟩
        exact ih (fun hm2 => hw (List.mem_cons_of_mem a hm2)) pat cs h.2

/-- Replacing a space-free pattern by a space leaves no occurrence of it
(the length-bounded workhorse). -/
theorem hasSubstr_replaceL_self (pat : Str) (hne : pat ≠ []) (hsp : ' ' ∉ pat) :
    ∀ (n : Nat) (l : Str), l.length ≤ n →
      hasSubstr pat (replaceL pat [' '] l) = false := by
  intro n
  induction n with
  | zero =>
    intro l hl
    have hnil : l = [] := List.length_eq_zero.mp (Nat.le_zero.mp hl)
    subst hnil
    cases pat with
    | nil => exact absurd rfl hne
    | cons p0 pr => rfl
  | succ n2 ih =>
    intro l hl
    cases l with
    | nil =>
      cases pat with
      | nil => exact absurd rfl hne
      | cons p0 pr => rfl
    | cons c cs =>
      have hcs : cs.length ≤ n2 := by
        simp only [List.length_cons] at hl
        omega
      rw [replaceL_cons]
      by_cases hm : pat.isPrefixOf (c :: cs) = true
      · rw [if_pos hm]
        cases pat with
        | nil => exact absurd rfl hne
        | cons p0 pr =>
          have hp0 : p0 ≠ ' ' := fun he => hsp (by simp [he])
          have hdlen : (cs.drop pr.length).length ≤ n2 := by
            simp only [List.length_drop]
            omega
          have hrec := ih (cs.drop pr.length) hdlen
          simp [hasSubstr, List.isPrefixOf, hp0, hrec]
      · rw [if_neg hm]
        have hrec := ih cs hcs
        cases pat with
        | nil => exact absurd rfl hne
        | cons p0 pr =>
          have hpr : ' ' ∉ pr := fun hm2 => hsp (List.mem_cons_of_mem p0 hm2)
          have hhead : (p0 :: pr).isPrefixOf (c :: replaceL (p0 :: pr) [' '] cs)
              = false := by
            cases hb : (p0 :: pr).isPrefixOf (c :: replaceL (p0 :: pr) [' '] cs) with
            | false => rfl
            | true =>
              exfalso
              simp only [List.isPrefixOf, Bool.and_eq_true] at hb
              have h2 := isPrefixOf_replaceL pr hpr (p0 :: pr) cs hb.2
              have h3 : (p0 :: pr).isPrefixOf (c :: cs) = true := by
                simp only [List.isPrefixOf, Bool.and_eq_true]
                exact ⟨hb.1, h2⟩
              exact hm h3
          simp [hasSubstr, hhead, hrec]

/-- Replacing a space-free pattern by a space leaves no occurrence of it. -/
theorem hasSubstr_replaceL_self_all (pat : Str) (hne : pat ≠ [])
    (hsp : ' ' ∉ pat) (l : Str) : hasSubstr pat (replaceL pat [' '] l) = false :=
  hasSubstr_replaceL_self pat hne hsp l.length l (le_refl _)

/-- Replacing any pattern by a space creates no occurrence of an absent
space-free pattern (the length-bounded workhorse). -/
theorem hasSubstr_replaceL_other (p1 : Str) (hsp : ' ' ∉ p1) (p2 : Str) :
    ∀ (n : Nat) (l : Str), l.length ≤ n → hasSubstr p1 l = false →
      hasSubstr p1 (replaceL p2 [' '] l) = false := by
  intro n
  induction n with
  | zero =>
    intro l hl h
    have hnil : l = [] := List.length_eq_zero.mp (Nat.le_zero.mp hl)
    subst hnil
    exact h
  | succ n2 ih =>
    intro l hl h
    cases l with
    | nil => exact h
    | cons c cs =>
      have hcs : cs.length ≤ n2 := by
        simp only [List.length_cons] at hl
        omega
      have hsplit : p1.isPrefixOf (c :: cs) = false ∧ hasSubstr p1 cs = false := by
        simpa [hasSubstr] using h
      have hp1ne : p1 ≠ [] := by
        intro he
        subst he
        simp [List.isPrefixOf] at hsplit
      rw [replaceL_cons]
      by_cases hm : p2.isPrefixOf (c :: cs) = true
      · rw [if_pos hm]
        cases p1 with
        | nil => exact absurd rfl hp1ne
        | cons q qr =>
          have hq : q ≠ ' ' := fun he => hsp (by simp [he])
          have hdrop : hasSubstr (q :: qr) (cs.drop (p2.length - 1)) = false := by
            cases hb : hasSubstr (q :: qr) (cs.drop (p2.length - 1)) with
            | false => rfl
            | true =>
              have h2 := hasSubstr_drop (q :: qr) (p2.length - 1) cs hb
              rw [hsplit.2] at h2
              exact absurd h2 Bool.false_ne_true
          have hdlen : (cs.drop (p2.length - 1)).length ≤ n2 := by
            simp only [List.length_drop]
            omega
          have hrec := ih (cs.drop (p2.length - 1)) hdlen hdrop
          simp [hasSubstr, List.isPrefixOf, hq, hrec]
      · rw [if_neg hm]
        cases p1 with
        | nil => exact absurd rfl hp1ne
        | cons q qr =>
          have hqr : ' ' ∉ qr := fun hm2 => hsp (List.mem_cons_of_mem q hm2)
          have hrec := ih cs hcs hsplit.2
          have hhead : (q :: qr).isPrefixOf (c :: replaceL p2 [' '] cs) = false := by
            cases hb : (q :: qr).isPrefixOf (c :: replaceL p2 [' '] cs) with
            | false => rfl
            | true =>
              exfalso
              simp only [List.isPrefixOf, Bool.and_eq_true] at hb
              have h2 := isPrefixOf_replaceL qr hqr p2 cs hb.2
              have h3 : (q :: qr).isPrefixOf (c :: cs) = true := by
                simp only [List.isPrefixOf, Bool.and_eq_true]
                exact ⟨hb.1, h2⟩
              rw [hsplit.1] at h3
              exact absurd h3 Bool.false_ne_true
          simp [hasSubstr, hhead, hrec]

/-- Replacing any pattern by a space creates no occurrence of an absent
space-free pattern. -/
theorem hasSubstr_replaceL_other_all (p1 : Str) (hsp : ' ' ∉ p1) (p2 l : Str)
    (h : hasSubstr p1 l = false) : hasSubstr p1 (replaceL p2 [' '] l) = false :=
  hasSubstr_replaceL_other p1 hsp p2 l.length l (le_refl _) h

/-- Neither paragraph marker survives the summary pipeline of the
normalizer: replace both markers by spaces, trim, truncate. -/
theorem summary_pipeline_no_markers (s : Str) :
    hasSubstr (str "<p>")
      ((trim (replaceL (str "</p>") [' '] (replaceL (str "<p>") [' '] s))).take 600)
      = false ∧
    hasSubstr (str "</p>")
      ((trim (replaceL (str "</p>") [' '] (replaceL (str "<p>") [' '] s))).take 600)
      = false := by
  have h1 : hasSubstr (str "<p>") (replaceL (str "<p>") [' '] s) = false :=
    hasSubstr_replaceL_self_all (str "<p>") (by decide) (by decide) s
  have h2 : hasSubstr (str "<p>")
      (replaceL (str "</p>") [' '] (replaceL (str "<p>") [' '] s)) = false :=
    hasSubstr_replaceL_other_all (str "<p>") (by decide) (str "</p>") _ h1
  have h3 : hasSubstr (str "</p>")
      (replaceL (str "</p>") [' '] (replaceL (str "<p>") [' '] s)) = false :=
    hasSubstr_replaceL_self_all (str "</p>") (by decide) (by decide) _
  exact ⟨no_substr_take_trim _ _ h2 600, no_substr_take_trim _ _ h3 600⟩

set_option maxRecDepth 8000 in
/-- C5: a normalized article's headline has at most 240 characters and its
summary at most 600; a missing or blank title gives headline "Untitled"; a
missing summary gives the empty string; the literal paragraph markers are
handled before truncation: no marker occurs in any produced summary, and a
600-character text standing behind a marker survives truncation whole. -/
theorem c5_normalizer_bounds :
    (∀ (src : Str) (e : RawEntry) (a : Article),
      normalizeEntry src e = Except.ok a →
      a.headline.length ≤ 240 ∧
      a.summary.length ≤ 600 ∧
      (trim (e.title.getD []) = [] → a.headline = str "Untitled") ∧
      (e.summary = none → e.description = none → a.summary = []) ∧
      hasSubstr (str "<p>") a.summary = false ∧
      hasSubstr (str "</p>") a.summary = false) ∧
    Except.map Article.summary (normalizeEntry (str "Demo") eLongSummary)
      = Except.ok (List.replicate 600 'a') := by
  constructor
  · intro src e a h
    simp only [normalizeEntry] at h
    split at h
    · injection h with h2
      subst h2
      refine ⟨?_, ?_, ?_, ?_, ?_, ?_⟩
      · show (if trim (e.title.getD []) = [] then str "Untitled"
            else (trim (e.title.getD [])).take 240).length ≤ 240
        split
        · decide
        · exact List.length_take_le _ _
      · exact List.length_take_le _ _
      · intro ht
        show (if trim (e.title.getD []) = [] then str "Untitled"
            else (trim (e.title.getD [])).take 240) = str "Untitled"
        rw [if_pos ht]
      · intro hs hd
        show (trim (replaceL (str "</p>") [' '] (replaceL (str "<p>") [' ']
            (match e.summary with
             | some s => s
             | none => e.description.getD [])))).take 600 = []
        rw [hs, hd]
        rfl
      · exact (summary_pipeline_no_markers _).1
      · exact (summary_pipeline_no_markers _).2
    · simp at h
  · decide

/-- Witness for C5 at the all-fields-missing entry: headline is "Untitled",
the summary is empty, and the bounds hold. -/
theorem c5_normalizer_bounds_witness :
    aEmpty.headline = str "Untitled" ∧ aEmpty.summary = [] ∧
    aEmpty.headline.length ≤ 240 ∧ aEmpty.summary.length ≤ 600 :=
  ⟨(c5_normalizer_bounds.1 (str "Demo") eEmpty aEmpty (by decide)).2.2.1 (by decide),
   (c5_normalizer_bounds.1 (str "Demo") eEmpty aEmpty (by decide)).2.2.2.1 rfl rfl,
   (c5_normalizer_bounds.1 (str "Demo") eEmpty aEmpty (by decide)).1,
   (c5_normalizer_bounds.1 (str "Demo") eEmpty aEmpty (by decide)).2.1⟩

/-- C8: a normalized article's published time comes from the entry's
published field when present, else from its updated field when present, and
is absent when both are missing; it is never filled in with the current time
(the normalizer takes no clock at all). -/
theorem c8_published_at_preference (src : Str) (e : RawEntry) (a : Article)
    (h : normalizeEntry src e = Except.ok a) :
    (∃ t, e.published_parsed = some t ∧ a.published_at = some t) ∨
    (e.published_parsed = none ∧
      ∃ u, e.updated_parsed = some u ∧ a.published_at = some u) ∨
    (e.published_parsed = none ∧ e.updated_parsed = none ∧
      a.published_at = none) := by
  simp only [normalizeEntry] at h
  split at h
  · injection h with h2
    subst h2
    cases hpp : e.published_parsed with
    | some t => exact Or.inl ⟨t, rfl, by simp [hpp]⟩
    | none =>
      cases hup : e.updated_parsed with
      | some u => exact Or.inr (Or.inl ⟨rfl, u, rfl, by simp [hpp, hup]⟩)
      | none => exact Or.inr (Or.inr ⟨rfl, rfl, by simp [hpp, hup]⟩)
  · simp at h

/-- Witness for C8 at a concrete entry carrying a published time. -/
theorem c8_published_at_preference_witness :
    (∃ t, goodEntry1.published_parsed = some t ∧ aGood1.published_at = some t) ∨
    (goodEntry1.published_parsed = none ∧
      ∃ u, goodEntry1.updated_parsed = some u ∧ aGood1.published_at = some u) ∨
    (goodEntry1.published_parsed = none ∧ goodEntry1.updated_parsed = none ∧
      aGood1.published_at = none) :=
  c8_published_at_preference (str "Demo") goodEntry1 aGood1 (by decide)

/-- C10: a normalized article's links field is absent or a one-element list
holding a validated URL — never empty, never longer — and the normalizer
ignores the raw entry's own multi-link attribute entirely: its result
depends only on the attributes it reads. -/
theorem c10_links_singleton (src : Str) (e : RawEntry) (a : Article)
    (h : normalizeEntry src e = Except.ok a) :
    (a.links = none ∨ ∃ l, a.links = some [l] ∧ isValidHttpUrl l = true) ∧
    ∀ e2 : RawEntry, e2.title = e.title → e2.summary = e.summary →
      e2.description = e.description → e2.link = e.link →
      e2.published_parsed = e.published_parsed →
      e2.updated_parsed = e.updated_parsed →
      normalizeEntry src e2 = normalizeEntry src e := by
  constructor
  · simp only [normalizeEntry] at h
    split at h
    case isTrue hv =>
      injection h with h2
      subst h2
      cases hl : e.link with
      | none => exact Or.inl (by simp [hl])
      | some l =>
        by_cases hemp : l = []
        · exact Or.inl (by simp [hl, hemp])
        · right
          refine ⟨l, by simp [hl, hemp], ?_⟩
          rw [hl] at hv
          simpa [hemp] using hv
    case isFalse => simp at h
  · intro e2 h1 h2 h3 h4 h5 h6
    simp only [normalizeEntry, h1, h2, h3, h4, h5, h6]

/-- Witness for C10 at a concrete entry with a link. -/
theorem c10_links_singleton_witness :
    aGood2.links = none ∨ ∃ l, aGood2.links = some [l] ∧ isValidHttpUrl l = true :=
  (c10_links_singleton (str "Demo") goodEntry2 aGood2 (by decide)).1

end Grid7
